import Mathlib

/-!
Verification of the authentication/session core of the contacts application.

Source layout referenced throughout:
- `src/entity/models.py` — SQLAlchemy models `User`, `Contact`, `RefreshToken`;
- `src/api/auth.py` — HTTP handlers `register`, `login`, `refresh`, `logout`;
- `src/api/users.py` — handler `me` (current-user resolution);
- `main.py` — background job `cleanup_expired_tokens` and scheduler wiring.

The service layer (`src/services/auth_services.py`: class `AuthService` with
`register_user`, `authenticate`, `create_access_token`, `create_refresh_token`,
`validate_refresh_token`, `revoke_refresh_token`, `revoke_access_token`,
`get_current_user`) is not present among the sources; only its callers are.
Definitions for those operations are modelled from the specification (§4.1–§4.4)
and are marked `Modelled from the spec:` in their doc comments.

Timestamps are modelled as integers (seconds); SQL `TIMESTAMP` comparison is
integer comparison.
-/

namespace ContactsApp

/-- Row of the `users` table (`src/entity/models.py`, class `User`):
`id` primary key, `username` unique, `email` unique, `hash_password`. -/
structure User where
  id : Nat
  username : String
  email : String
  hash_password : String
deriving DecidableEq, Repr

/-- Row of the `refresh_tokens` table (`src/entity/models.py`, class
`RefreshToken`): `id` primary key, `user_id` foreign key to `users.id`
(declared WITHOUT an `ondelete` action), unique `token_hash`, `created_at`,
`expired_at`, nullable `revoked_at`, nullable `ip_address` / `user_agent`. -/
structure RefreshToken where
  id : Nat
  user_id : Nat
  token_hash : String
  created_at : Int
  expired_at : Int
  revoked_at : Option Int
  ip_address : Option String
  user_agent : Option String
deriving DecidableEq, Repr

/-- Row of the `contacts` table (`src/entity/models.py`, class `Contact`).
Only the foreign-key column matters for the ownership claims: `user_id` is
declared `ForeignKey("users.id", ondelete="CASCADE")` and nullable. The CRUD
payload columns are carried along unmodelled. -/
structure Contact where
  id : Nat
  first_name : String
  last_name : String
  email : String
  phone : String
  birthday : Int
  additional_info : Option String
  user_id : Option Nat
deriving DecidableEq, Repr

/-! ## The background purge job (`main.py`, `cleanup_expired_tokens`) -/

/-- `timedelta(days=7)` from `main.py` line 20, in seconds. -/
def sevenDays : Int := 7 * 86400

/-- The row predicate of the DELETE statement in `cleanup_expired_tokens`
(`main.py` lines 21–23):
`expired_at < :now OR revoked_at IS NOT NULL AND revoked_at < :cutoff`
with `cutoff = now - timedelta(days=7)`. SQL `AND` binds tighter than `OR`,
so the statement reads
`expired_at < now OR (revoked_at IS NOT NULL AND revoked_at < cutoff)`;
`revoked_at < cutoff` on a NULL `revoked_at` is never reached because of the
`IS NOT NULL` conjunct, modelled by matching on the option. -/
def cleanupPredicate (now : Int) (r : RefreshToken) : Bool :=
  decide (r.expired_at < now) ||
    (match r.revoked_at with
     | some t => decide (t < now - sevenDays)
     | none => false)

/-- One run of the purge job `cleanup_expired_tokens` (`main.py` lines 17–26)
on the `refresh_tokens` table: the rows matched by `cleanupPredicate` are
deleted, all others are kept unchanged. -/
def cleanup_expired_tokens (now : Int) (table : List RefreshToken) :
    List RefreshToken :=
  table.filter (fun r => !cleanupPredicate now r)

/-! ## FastAPI route registration for `POST /auth/refresh`
(`src/api/auth.py` lines 57–60)

The `refresh` endpoint carries TWO stacked `@router.post("/refresh", ...)`
decorators: the upper one declares `status_code=status.HTTP_201_CREATED`, the
lower one declares no status code, which in FastAPI defaults to 200 OK.
Python applies stacked decorators bottom-up, so the route without a status
code is registered first; Starlette serves the first registered route whose
path matches, so the 200 route shadows the 201 route. -/

/-- A registered route: path and the success status code it responds with. -/
structure RouteDecl where
  path : String
  status_code : Nat
deriving DecidableEq, Repr

/-- FastAPI's default success status when `status_code` is omitted. -/
def defaultStatus : Nat := 200

/-- The two routes registered for `POST /auth/refresh`, in registration
order: the bottom decorator (`src/api/auth.py` line 60, no `status_code`,
hence 200) registers first, then the top decorator (lines 57–59,
`status.HTTP_201_CREATED`). -/
def refreshRouteDecls : List RouteDecl :=
  [⟨"/auth/refresh", defaultStatus⟩, ⟨"/auth/refresh", 201⟩]

/-- Starlette route matching: the first registered route whose path fully
matches serves the request. -/
def servedRoute (routes : List RouteDecl) (path : String) : Option RouteDecl :=
  routes.find? (fun rt => rt.path == path)

/-- The status code a successful `POST /auth/refresh` responds with. -/
def refreshSuccessStatus : Option Nat :=
  (servedRoute refreshRouteDecls "/auth/refresh").map (fun rt => rt.status_code)

/-! ## The auth service (`src/services/auth_services.py`, absent from the
sources; operations modelled from spec §4.1–§4.4) -/

/-- Error taxonomy of spec §7: `Conflict`, `Unauthorized`, and the
refresh-token error kinds `TokenInvalid` / `TokenExpired` / `TokenRevoked`,
plus `NotFound` and `RateLimited`. -/
inductive AuthError
  | conflict
  | unauthorized
  | invalid
  | expired
  | revoked
  | notFound
  | rateLimited
deriving DecidableEq, Repr

/-- Modelled from the spec: the password hasher of the absent
`src/services/auth_services.py` (§4.1) — a salted one-way transform.
Idealized as an injective tagging of the plaintext so that verification
succeeds exactly on the hashed plaintext. -/
def hash_password (plain : String) : String := "bcrypt$" ++ plain

/-- Modelled from the spec: §4.1 `verify(plaintext, digest) -> bool`. -/
def verify_password (plain digest : String) : Bool :=
  digest == "bcrypt$" ++ plain

/-- Modelled from the spec: §4.3 — the refresh-token store hashes raw tokens
and persists only the hash. Idealized as an injective tag. -/
def hash_token (raw : String) : String := "sha256$" ++ raw

/-- A decoded access token (§4.2, §3): a self-contained signed assertion
carrying the subject (username), expiry, and a signature over both. -/
structure AccessToken where
  subject : String
  expires_at : Int
  sig : String
deriving DecidableEq, Repr

/-- Modelled from the spec: §4.2 — the signature over subject and expiry
computed with the server-held secret key, idealized as an injective tag. -/
def sign (secret subject : String) (exp : Int) : String :=
  secret ++ "|" ++ subject ++ "|" ++ toString exp

/-- Modelled from the spec: §4.2 `mint_access` — embeds the subject and
`expires_at = now + ACCESS_TTL` and signs them
(`AuthService.create_access_token`). -/
def create_access_token (secret subject : String) (now ttl : Int) :
    AccessToken :=
  ⟨subject, now + ttl, sign secret subject (now + ttl)⟩

/-- Modelled from the spec: §4.2 `verify_access` — `Invalid` on signature
mismatch, `Expired` if `expires_at <= now`, otherwise the subject. -/
def verify_access (secret : String) (tok : AccessToken) (now : Int) :
    Except AuthError String :=
  if tok.sig == sign secret tok.subject tok.expires_at then
    if tok.expires_at ≤ now then .error .expired else .ok tok.subject
  else .error .invalid

/-- The persisted state the auth service operates on: the `users`,
`refresh_tokens` and `contacts` tables, the access-token denylist consulted
by current-user resolution, and the primary-key counters of the two
auth tables. -/
structure AuthState where
  users : List User
  refresh_tokens : List RefreshToken
  contacts : List Contact
  denylist : List AccessToken
  next_user_id : Nat
  next_token_id : Nat
deriving DecidableEq, Repr

/-- Modelled from the spec: §4.3 — lookup of a refresh-token row by its
`token_hash` (the unique-key lookup of `validate`/`revoke`). -/
def find_token (s : AuthState) (h : String) : Option RefreshToken :=
  s.refresh_tokens.find? (fun r => r.token_hash == h)

/-- Modelled from the spec: §4.3 `validate(raw_token, now)`
(`AuthService.validate_refresh_token`, absent from the sources) — hashes the
input and looks up by hash; `NotFound` if no row matches, `Expired` if
`now >= expires_at`, `Revoked` if `revoked_at IS NOT NULL`, otherwise the
record. -/
def validate_refresh_token (s : AuthState) (raw : String) (now : Int) :
    Except AuthError RefreshToken :=
  match find_token s (hash_token raw) with
  | none => .error .notFound
  | some r =>
    if r.expired_at ≤ now then .error .expired
    else match r.revoked_at with
      | some _ => .error .revoked
      | none => .ok r

/-- The row update performed by `revoke`: set `revoked_at = now` when the
row carries the presented token's hash and is not yet revoked; leave every
other row as it is. -/
def revokeRow (raw : String) (now : Int) (r : RefreshToken) : RefreshToken :=
  if r.token_hash == hash_token raw && r.revoked_at == none then
    { r with revoked_at := some now }
  else r

/-- Modelled from the spec: §4.3 `revoke(raw_token, now)`
(`AuthService.revoke_refresh_token`, absent from the sources) — sets
`revoked_at = now` on the matching row; a no-op when the row is absent or
already revoked (revocation is idempotent). -/
def revoke_refresh_token (s : AuthState) (raw : String) (now : Int) :
    AuthState :=
  { s with refresh_tokens := s.refresh_tokens.map (revokeRow raw now) }

/-- Modelled from the spec: §4.3 `issue(user_id, now, ip, user_agent)`
(`AuthService.create_refresh_token`, absent from the sources) — persists the
hash of the freshly generated raw token `rawNew` plus metadata with
`expires_at = now + REFRESH_TTL`; the raw token is returned to the caller. -/
def create_refresh_token (s : AuthState) (uid : Nat) (rawNew : String)
    (now ttl : Int) (ip ua : Option String) : AuthState :=
  { s with
      refresh_tokens := s.refresh_tokens ++
        [⟨s.next_token_id, uid, hash_token rawNew, now, now + ttl, none, ip, ua⟩],
      next_token_id := s.next_token_id + 1 }

/-- Modelled from the spec: §4.4 `register`
(`AuthService.register_user`, absent from the sources) — `Conflict` when the
username or email already exists (the unique constraints of `users`,
`src/entity/models.py` lines 86–89), leaving the state unchanged; otherwise
hashes the password and persists the new user. -/
def register_user (s : AuthState) (username email password : String) :
    Except AuthError User × AuthState :=
  if s.users.any (fun u => u.username == username || u.email == email) then
    (.error .conflict, s)
  else
    let u : User := ⟨s.next_user_id, username, email, hash_password password⟩
    (.ok u,
      { s with users := s.users ++ [u], next_user_id := s.next_user_id + 1 })

/-- Modelled from the spec: §4.4 `authenticate(username_or_email, password)`
(`AuthService.authenticate`, absent from the sources) — looks the user up,
fails with `Unauthorized` (never `NotFound`, to avoid user enumeration) when
the user is absent or password verification fails. -/
def authenticate (s : AuthState) (q password : String) :
    Except AuthError User :=
  match s.users.find? (fun u => u.username == q || u.email == q) with
  | none => .error .unauthorized
  | some u =>
    if verify_password password u.hash_password then .ok u
    else .error .unauthorized

/-- Modelled from the spec: `AuthService.revoke_access_token` (absent from
the sources) — records the logged-out access token in the denylist consulted
by current-user resolution (§4.4 `logout`, §3 Access Token). -/
def revoke_access_token (s : AuthState) (tok : AccessToken) : AuthState :=
  { s with denylist := s.denylist ++ [tok] }

/-- The `logout` handler (`src/api/auth.py` lines 84–92): denylist the
bearer access token, then revoke the presented refresh token. -/
def logout_handler (s : AuthState) (tok : AccessToken) (rawRefresh : String)
    (now : Int) : AuthState :=
  revoke_refresh_token (revoke_access_token s tok) rawRefresh now

/-- Modelled from the spec: §4.4 `resolve_current_user`
(`AuthService.get_current_user`, absent from the sources; serves
`GET /users/me`, `src/api/users.py`) — `Unauthorized` when `verify_access`
fails, when the token is denylisted, or when the subject no longer resolves
to a user. -/
def get_current_user (s : AuthState) (secret : String) (tok : AccessToken)
    (now : Int) : Except AuthError User :=
  match verify_access secret tok now with
  | .error _ => .error .unauthorized
  | .ok subject =>
    if s.denylist.any (fun d => d == tok) then .error .unauthorized
    else match s.users.find? (fun u => u.username == subject) with
      | none => .error .unauthorized
      | some u => .ok u

/-- Body of the token-pair responses of `login` and `refresh`
(`src/schemas/token_schema.py` is absent; the shape is taken from the
handlers): access token, token type `"bearer"`, raw refresh token. -/
structure TokenResponse where
  access_token : AccessToken
  token_type : String
  refresh_token : String
deriving DecidableEq, Repr

/-- The `refresh` handler (`src/api/auth.py` lines 61–81): validate the
presented token, mint a new access token for the owner, persist a new
refresh token (`rawNew` is the raw token generated inside
`create_refresh_token`), and only then revoke the presented token. A
validation failure is returned unchanged (FastAPI surfaces it as 401). -/
def refresh_handler (s : AuthState) (raw rawNew : String) (now : Int)
    (secret : String) (accessTtl refreshTtl : Int) (ip ua : Option String) :
    Except AuthError (TokenResponse × AuthState) :=
  match validate_refresh_token s raw now with
  | .error e => .error e
  | .ok record =>
    match s.users.find? (fun u => u.id == record.user_id) with
    | none => .error .notFound
    | some u =>
      let newAccess := create_access_token secret u.username now accessTtl
      let s1 := create_refresh_token s record.user_id rawNew now refreshTtl ip ua
      let s2 := revoke_refresh_token s1 raw now
      .ok (⟨newAccess, "bearer", rawNew⟩, s2)

/-- The sequence of store states the `refresh` handler passes through
(`src/api/auth.py` lines 66–75): the initial state, the state after
`create_refresh_token` persisted the new token, and the state after
`revoke_refresh_token` revoked the presented one. A failed validation stops
at the initial state. -/
def refresh_handler_states (s : AuthState) (raw rawNew : String)
    (now refreshTtl : Int) (ip ua : Option String) : List AuthState :=
  match validate_refresh_token s raw now with
  | .error _ => [s]
  | .ok record =>
    let s1 := create_refresh_token s record.user_id rawNew now refreshTtl ip ua
    [s, s1, revoke_refresh_token s1 raw now]

/-- The store state left behind when the handler fails at the final
`revoke_refresh_token` call, after `create_refresh_token` already committed:
the handler wraps the two writes in no common transaction (`src/api/auth.py`
lines 69–75), so the issued token stays persisted. `none` when validation
already failed (nothing was issued). -/
def refresh_handler_revoke_failed_state (s : AuthState) (raw rawNew : String)
    (now refreshTtl : Int) (ip ua : Option String) : Option AuthState :=
  match validate_refresh_token s raw now with
  | .error _ => none
  | .ok record =>
    some (create_refresh_token s record.user_id rawNew now refreshTtl ip ua)

/-! ## Foreign-key behavior on `DELETE FROM users` (`src/entity/models.py`) -/

/-- The `ON DELETE` action a foreign key declares. -/
inductive OnDeleteAction
  | cascade
  | noAction
deriving DecidableEq, Repr

/-- `Contact.user_id` is `ForeignKey("users.id", ondelete="CASCADE")`
(`src/entity/models.py` lines 57–60). -/
def contacts_user_fk : OnDeleteAction := .cascade

/-- `RefreshToken.user_id` is `ForeignKey("users.id")` with NO `ondelete`
clause (`src/entity/models.py` line 111): the SQL default, NO ACTION. -/
def refresh_tokens_user_fk : OnDeleteAction := .noAction

/-- Foreign-key violation raised by the database. -/
inductive FkViolation
  | restricted
deriving DecidableEq, Repr

/-- `DELETE FROM users WHERE id = uid` under the declared foreign keys:
a referencing row behind a NO ACTION key blocks the delete with a
foreign-key violation; a referencing row behind a CASCADE key is deleted
with the user. Written generically in the two declared actions so that the
declarations above decide the behavior. -/
def delete_user (s : AuthState) (uid : Nat) : Except FkViolation AuthState :=
  if refresh_tokens_user_fk == .noAction &&
      s.refresh_tokens.any (fun r => r.user_id == uid) then
    .error .restricted
  else if contacts_user_fk == .noAction &&
      s.contacts.any (fun c => c.user_id == some uid) then
    .error .restricted
  else
    .ok { s with
      users := s.users.filter (fun u => !(u.id == uid)),
      refresh_tokens :=
        if refresh_tokens_user_fk == .cascade then
          s.refresh_tokens.filter (fun r => !(r.user_id == uid))
        else s.refresh_tokens,
      contacts :=
        if contacts_user_fk == .cascade then
          s.contacts.filter (fun c => !(c.user_id == some uid))
        else s.contacts }

/-! ## The request-level state machine -/

/-- One state-changing request or job against the persisted state: the four
auth endpoints (`src/api/auth.py`), the purge job (`main.py`) and a user
deletion at the storage layer. Failed requests leave the state unchanged. -/
inductive AuthOp
  | registerOp (username email password : String)
  | loginOp (q password rawNew : String) (now ttl : Int) (ip ua : Option String)
  | refreshOp (raw rawNew : String) (now : Int) (secret : String)
      (aTtl rTtl : Int) (ip ua : Option String)
  | revokeOp (raw : String) (now : Int)
  | logoutOp (tok : AccessToken) (raw : String) (now : Int)
  | purgeOp (now : Int)
  | deleteUserOp (uid : Nat)

/-- Whether the operation is the background purge job. -/
def AuthOp.isPurge : AuthOp → Bool
  | .purgeOp _ => true
  | _ => false

/-- The state transition of one operation. -/
def applyAuthOp (s : AuthState) : AuthOp → AuthState
  | .registerOp un em pw => (register_user s un em pw).2
  | .loginOp q pw rawNew now ttl ip ua =>
    match authenticate s q pw with
    | .error _ => s
    | .ok u => create_refresh_token s u.id rawNew now ttl ip ua
  | .refreshOp raw rawNew now secret aTtl rTtl ip ua =>
    match refresh_handler s raw rawNew now secret aTtl rTtl ip ua with
    | .error _ => s
    | .ok (_, s2) => s2
  | .revokeOp raw now => revoke_refresh_token s raw now
  | .logoutOp tok raw now => logout_handler s tok raw now
  | .purgeOp now =>
    { s with refresh_tokens := cleanup_expired_tokens now s.refresh_tokens }
  | .deleteUserOp uid =>
    match delete_user s uid with
    | .error _ => s
    | .ok s2 => s2

/-- Applying a sequence of operations in order. -/
def applyAuthOps (s : AuthState) (ops : List AuthOp) : AuthState :=
  ops.foldl applyAuthOp s

/-- The empty database with fresh primary-key counters. -/
def initialState : AuthState := ⟨[], [], [], [], 1, 1⟩

/-- States reachable from the empty database by the modelled operations. -/
inductive Reachable : AuthState → Prop
  | init : Reachable initialState
  | step {s : AuthState} (op : AuthOp) : Reachable s → Reachable (applyAuthOp s op)

end ContactsApp

namespace ContactsApp

/-! ## Theorems for the purge job -/

/-- C2: one run of the purge job keeps exactly the rows satisfying neither
`expired_at < now` nor (`revoked_at` set and `revoked_at < now - 7 days`),
each unchanged; in particular a revoked but not-yet-expired row whose
`revoked_at` is older than the 7-day cutoff is deleted. -/
theorem cleanup_deletes_exactly (now : Int) (table : List RefreshToken) :
    (∀ r, r ∈ cleanup_expired_tokens now table ↔
      r ∈ table ∧
        ¬(r.expired_at < now ∨ ∃ t, r.revoked_at = some t ∧ t < now - sevenDays)) ∧
    (∀ r ∈ table, ∀ t, r.revoked_at = some t → now ≤ r.expired_at →
      t < now - sevenDays → r ∉ cleanup_expired_tokens now table) := by
  have hmem : ∀ r, r ∈ cleanup_expired_tokens now table ↔
      r ∈ table ∧
        ¬(r.expired_at < now ∨ ∃ t, r.revoked_at = some t ∧ t < now - sevenDays) := by
    intro r
    rw [cleanup_expired_tokens, List.mem_filter]
    refine and_congr_right fun _ => ?_
    cases h : r.revoked_at with
    | none => simp [cleanupPredicate, h]
    | some t => simp [cleanupPredicate, h]
  refine ⟨hmem, ?_⟩
  intro r hr t hrev _ hcut hmem2
  exact ((hmem r).mp hmem2).2 (Or.inr ⟨t, hrev, hcut⟩)

/-- A concrete revoked, not-yet-expired row whose `revoked_at` is older than
the 7-day cutoff at time 1000000. -/
def tokRevokedOld : RefreshToken :=
  ⟨1, 1, "sha256$t1", 0, 2000000, some 395000, none, none⟩

/-- Witness for `cleanup_deletes_exactly` at `now = 1000000`: the revoked
but unexpired row `tokRevokedOld` (`revoked_at = 395000 < 395200 = cutoff`)
is deleted. -/
theorem cleanup_deletes_exactly_witness :
    tokRevokedOld ∉ cleanup_expired_tokens 1000000 [tokRevokedOld] :=
  (cleanup_deletes_exactly 1000000 [tokRevokedOld]).2 tokRevokedOld
    (by simp) 395000 rfl (by decide) (by decide)

/-- C8: the purge job is idempotent — a second run at the same (or any not
later) timestamp over the table left by the first run deletes no further
rows. -/
theorem cleanup_idempotent (now now2 : Int) (table : List RefreshToken)
    (h : now2 ≤ now) :
    cleanup_expired_tokens now2 (cleanup_expired_tokens now table) =
      cleanup_expired_tokens now table := by
  rw [cleanup_expired_tokens, List.filter_eq_self]
  intro r hr
  rw [cleanup_expired_tokens, List.mem_filter] at hr
  have hkeep := hr.2
  cases hrev : r.revoked_at with
  | none =>
    simp [cleanupPredicate, hrev, sevenDays] at hkeep ⊢
    omega
  | some t =>
    simp [cleanupPredicate, hrev, sevenDays] at hkeep ⊢
    omega

/-- Witness for `cleanup_idempotent` at `now = now2 = 1000000` on a concrete
two-row table. -/
theorem cleanup_idempotent_witness :
    cleanup_expired_tokens 1000000
        (cleanup_expired_tokens 1000000 [tokRevokedOld,
          ⟨2, 1, "sha256$t2", 0, 2000000, none, none, none⟩]) =
      cleanup_expired_tokens 1000000 [tokRevokedOld,
        ⟨2, 1, "sha256$t2", 0, 2000000, none, none, none⟩] :=
  cleanup_idempotent 1000000 1000000 _ (by decide)

/-! ## Helper lemmas about the modelled operations -/

/-- The token hash tag is injective. -/
theorem hash_token_inj {a b : String} (h : hash_token a = hash_token b) :
    a = b := by
  have hd := congrArg String.data h
  simp [hash_token, String.data_append] at hd
  exact String.ext hd

/-- Password verification succeeds on a stored digest exactly for the hashed
plaintext. -/
theorem verify_password_hash_iff (p q : String) :
    verify_password p (hash_password q) = true ↔ p = q := by
  unfold verify_password hash_password
  rw [beq_iff_eq]
  constructor
  · intro h
    have hd := congrArg String.data h
    simp [String.data_append] at hd
    exact (String.ext hd).symm
  · rintro rfl; rfl

/-- `find?` over a map by a function that preserves the predicate. -/
theorem find?_map_eq {α : Type} (g : α → α) (p : α → Bool)
    (hg : ∀ x, p (g x) = p x) (l : List α) :
    (l.map g).find? p = Option.map g (l.find? p) := by
  induction l with
  | nil => rfl
  | cons a l ih =>
    cases ha : p a with
    | true =>
      rw [List.map_cons, List.find?_cons_of_pos _ (by rw [hg]; exact ha),
        List.find?_cons_of_pos _ ha]
      rfl
    | false =>
      rw [List.map_cons, List.find?_cons_of_neg _ (by simp [hg, ha]),
        List.find?_cons_of_neg _ (by simp [ha])]
      exact ih

/-- `revokeRow` does not touch the token hash. -/
theorem revokeRow_token_hash (raw : String) (now : Int) (r : RefreshToken) :
    (revokeRow raw now r).token_hash = r.token_hash := by
  unfold revokeRow; split <;> rfl

/-- `revokeRow` does not touch the row id. -/
theorem revokeRow_id (raw : String) (now : Int) (r : RefreshToken) :
    (revokeRow raw now r).id = r.id := by
  unfold revokeRow; split <;> rfl

/-- `revokeRow` does not touch the owner. -/
theorem revokeRow_user_id (raw : String) (now : Int) (r : RefreshToken) :
    (revokeRow raw now r).user_id = r.user_id := by
  unfold revokeRow; split <;> rfl

/-- `revokeRow` does not touch the expiry. -/
theorem revokeRow_expired_at (raw : String) (now : Int) (r : RefreshToken) :
    (revokeRow raw now r).expired_at = r.expired_at := by
  unfold revokeRow; split <;> rfl

/-- An already revoked row is left untouched (revocation is idempotent). -/
theorem revokeRow_of_revoked {r : RefreshToken} {t : Int} (raw : String)
    (now : Int) (h : r.revoked_at = some t) : revokeRow raw now r = r := by
  unfold revokeRow
  rw [h]
  simp

/-- Token lookup in the state after a revocation. -/
theorem find_token_revoke (s : AuthState) (raw : String) (now : Int)
    (h : String) :
    find_token (revoke_refresh_token s raw now) h =
      Option.map (revokeRow raw now) (find_token s h) := by
  unfold find_token revoke_refresh_token
  exact find?_map_eq (revokeRow raw now) _
    (fun r => by rw [revokeRow_token_hash]) _

/-- Token lookup is unchanged by issuing a new token when it already finds a
row (the new row is appended behind every existing one). -/
theorem find_token_create_of_found {s : AuthState} {h : String}
    {r : RefreshToken} (uid : Nat) (rawNew : String) (now ttl : Int)
    (ip ua : Option String) (hf : find_token s h = some r) :
    find_token (create_refresh_token s uid rawNew now ttl ip ua) h = some r := by
  unfold find_token at hf ⊢
  unfold create_refresh_token
  rw [List.find?_append, hf]
  rfl

/-- Token lookup of a freshly issued token finds the appended row when no
existing row carries its hash. -/
theorem find_token_create_of_fresh {s : AuthState} (uid : Nat)
    (rawNew : String) (now ttl : Int) (ip ua : Option String)
    (hfresh : ∀ r ∈ s.refresh_tokens, r.token_hash ≠ hash_token rawNew) :
    find_token (create_refresh_token s uid rawNew now ttl ip ua)
        (hash_token rawNew) =
      some ⟨s.next_token_id, uid, hash_token rawNew, now, now + ttl, none,
        ip, ua⟩ := by
  unfold find_token create_refresh_token
  rw [List.find?_append]
  have h1 : List.find? (fun r => r.token_hash == hash_token rawNew)
      s.refresh_tokens = none := by
    rw [List.find?_eq_none]
    intro x hx
    simp only [beq_iff_eq]
    exact hfresh x hx
  rw [h1]
  simp [List.find?]

/-- Registration does not touch the token table, the denylist, the contacts
or the token id counter. -/
theorem register_user_state (s : AuthState) (un em pw : String) :
    ((register_user s un em pw).2).refresh_tokens = s.refresh_tokens ∧
    ((register_user s un em pw).2).denylist = s.denylist ∧
    ((register_user s un em pw).2).contacts = s.contacts ∧
    ((register_user s un em pw).2).next_token_id = s.next_token_id := by
  unfold register_user
  split <;> exact ⟨rfl, rfl, rfl, rfl⟩

/-- What a successful user deletion does to the state: users are filtered,
contacts cascade, the token table and denylist are untouched, and — because
the refresh-token foreign key blocks the delete otherwise — no token row
referenced the deleted user. -/
theorem delete_user_ok_state {s : AuthState} {uid : Nat} {s2 : AuthState}
    (h : delete_user s uid = .ok s2) :
    s2.refresh_tokens = s.refresh_tokens ∧ s2.denylist = s.denylist ∧
    s2.users = s.users.filter (fun u => !(u.id == uid)) ∧
    s2.next_token_id = s.next_token_id ∧
    (∀ r ∈ s.refresh_tokens, r.user_id ≠ uid) := by
  unfold delete_user at h
  split at h
  · exact absurd h (by simp)
  · rename_i hblock
    rw [Bool.and_eq_true, not_and] at hblock
    have hany := hblock rfl
    rw [Bool.not_eq_true, List.any_eq_false] at hany
    split at h
    · exact absurd h (by simp)
    · injection h with hs2
      subst hs2
      refine ⟨rfl, rfl, rfl, rfl, ?_⟩
      intro r hr heq
      exact hany r hr (by rw [heq, beq_self_eq_true])

/-! ## Theorem for validate (C3) -/

/-- C3: `validate` fails with `NotFound` exactly when no stored row's
`token_hash` matches the hash of the input; it fails with `Expired` exactly
when the matching row has `now >= expires_at`; it fails with `Revoked`
exactly when the matching row is unexpired but `revoked_at` is set (expiry
is checked before revocation); and it returns the record exactly when
`revoked_at IS NULL AND now < expires_at`. -/
theorem validate_refresh_token_spec (s : AuthState) (raw : String)
    (now : Int) :
    (validate_refresh_token s raw now = .error .notFound ↔
      ∀ r ∈ s.refresh_tokens, r.token_hash ≠ hash_token raw) ∧
    (validate_refresh_token s raw now = .error .expired ↔
      ∃ r, find_token s (hash_token raw) = some r ∧ r.expired_at ≤ now) ∧
    (validate_refresh_token s raw now = .error .revoked ↔
      ∃ r, find_token s (hash_token raw) = some r ∧ now < r.expired_at ∧
        r.revoked_at ≠ none) ∧
    (∀ r0, validate_refresh_token s raw now = .ok r0 ↔
      find_token s (hash_token raw) = some r0 ∧ r0.revoked_at = none ∧
        now < r0.expired_at) := by
  have hnone : find_token s (hash_token raw) = none →
      ∀ r ∈ s.refresh_tokens, r.token_hash ≠ hash_token raw := by
    intro hf r hr
    have hf' : s.refresh_tokens.find? (fun r => r.token_hash == hash_token raw)
        = none := hf
    have := List.find?_eq_none.mp hf' r hr
    simpa [beq_iff_eq] using this
  have hsome : ∀ {r : RefreshToken},
      find_token s (hash_token raw) = some r →
      r ∈ s.refresh_tokens ∧ r.token_hash = hash_token raw := by
    intro r hf
    have hf' : s.refresh_tokens.find? (fun r => r.token_hash == hash_token raw)
        = some r := hf
    exact ⟨List.mem_of_find?_eq_some hf',
      by simpa [beq_iff_eq] using List.find?_some hf'⟩
  unfold validate_refresh_token
  cases hf : find_token s (hash_token raw) with
  | none =>
    refine ⟨iff_of_true rfl (hnone hf), ?_, ?_, ?_⟩
    · simp
    · simp
    · intro r0; simp
  | some r =>
    have hmem := (hsome hf).1
    have hhash := (hsome hf).2
    dsimp only
    by_cases hexp : r.expired_at ≤ now
    · rw [if_pos hexp]
      refine ⟨iff_of_false (by simp) (fun hall => hall r hmem hhash),
        iff_of_true rfl ⟨r, rfl, hexp⟩, ?_, ?_⟩
      · constructor
        · intro h; exact absurd h (by simp)
        · rintro ⟨r2, hr2, hlt, -⟩
          cases Option.some.inj hr2
          omega
      · intro r0
        constructor
        · intro h; exact absurd h (by simp)
        · rintro ⟨hr0, -, hlt⟩
          cases Option.some.inj hr0
          omega
    · rw [if_neg hexp]
      cases hrev : r.revoked_at with
      | some t =>
        refine ⟨iff_of_false (by simp) (fun hall => hall r hmem hhash), ?_,
          iff_of_true rfl ⟨r, rfl, by omega, by rw [hrev]; simp⟩, ?_⟩
        · constructor
          · intro h; exact absurd h (by simp)
          · rintro ⟨r2, hr2, hle⟩
            cases Option.some.inj hr2
            omega
        · intro r0
          constructor
          · intro h; exact absurd h (by simp)
          · rintro ⟨hr0, hnone0, -⟩
            cases Option.some.inj hr0
            rw [hrev] at hnone0
            cases hnone0
      | none =>
        refine ⟨iff_of_false (by simp) (fun hall => hall r hmem hhash), ?_,
          ?_, ?_⟩
        · constructor
          · intro h; exact absurd h (by simp)
          · rintro ⟨r2, hr2, hle⟩
            cases Option.some.inj hr2
            omega
        · constructor
          · intro h; exact absurd h (by simp)
          · rintro ⟨r2, hr2, -, hrev2⟩
            cases Option.some.inj hr2
            exact (hrev2 hrev).elim
        · intro r0
          constructor
          · intro h
            cases Except.ok.inj h
            exact ⟨rfl, hrev, by omega⟩
          · rintro ⟨hr0, -, -⟩
            cases Option.some.inj hr0
            rfl

/-! ## Inversion and stability lemmas -/

/-- Inversion of a successful `validate`: the row was found by hash, is
unrevoked, and is unexpired. -/
theorem validate_ok_inv {s : AuthState} {raw : String} {now : Int}
    {r : RefreshToken} (h : validate_refresh_token s raw now = .ok r) :
    find_token s (hash_token raw) = some r ∧ r.revoked_at = none ∧
      now < r.expired_at := by
  unfold validate_refresh_token at h
  cases hf : find_token s (hash_token raw) with
  | none => rw [hf] at h; cases h
  | some r1 =>
    rw [hf] at h
    dsimp only at h
    by_cases hexp : r1.expired_at ≤ now
    · rw [if_pos hexp] at h; cases h
    · rw [if_neg hexp] at h
      cases hrev : r1.revoked_at with
      | some t => rw [hrev] at h; cases h
      | none =>
        rw [hrev] at h
        cases Except.ok.inj h
        exact ⟨rfl, hrev, by omega⟩

/-- `validate` on a state whose matching row is revoked: `Expired` from the
row's expiry on (expiry is checked first), `Revoked` before it. -/
theorem validate_of_find_revoked {s : AuthState} {raw : String}
    {r : RefreshToken} {t : Int} (n : Int)
    (hf : find_token s (hash_token raw) = some r)
    (hrev : r.revoked_at = some t) :
    validate_refresh_token s raw n =
      .error (if r.expired_at ≤ n then .expired else .revoked) := by
  unfold validate_refresh_token
  rw [hf]
  dsimp only
  by_cases hexp : r.expired_at ≤ n
  · rw [if_pos hexp, if_pos hexp]
  · rw [if_neg hexp, if_neg hexp, hrev]

/-- The `refresh` handler fails with exactly the error of `validate`. -/
theorem refresh_handler_error {s : AuthState} {raw : String} {now : Int}
    {e : AuthError} (rawN2 secret2 : String) (aTtl2 rTtl2 : Int)
    (ip2 ua2 : Option String)
    (h : validate_refresh_token s raw now = .error e) :
    refresh_handler s raw rawN2 now secret2 aTtl2 rTtl2 ip2 ua2 =
      .error e := by
  unfold refresh_handler
  rw [h]

/-- Inversion of a successful run of the `refresh` handler: the presented
token validated, its owner resolved, the response carries the new raw
refresh token, and the final state is revoke-after-create. -/
theorem refresh_handler_ok_state {s : AuthState} {raw rawNew : String}
    {now : Int} {secret : String} {aTtl rTtl : Int} {ip ua : Option String}
    {resp : TokenResponse} {s2 : AuthState}
    (h : refresh_handler s raw rawNew now secret aTtl rTtl ip ua =
      .ok (resp, s2)) :
    ∃ record u, validate_refresh_token s raw now = .ok record ∧
      s.users.find? (fun v => v.id == record.user_id) = some u ∧
      resp = ⟨create_access_token secret u.username now aTtl, "bearer",
        rawNew⟩ ∧
      s2 = revoke_refresh_token
        (create_refresh_token s record.user_id rawNew now rTtl ip ua)
        raw now := by
  unfold refresh_handler at h
  cases hv : validate_refresh_token s raw now with
  | error e => rw [hv] at h; cases h
  | ok record =>
    rw [hv] at h
    dsimp only at h
    cases hu : s.users.find? (fun v => v.id == record.user_id) with
    | none => rw [hu] at h; cases h
    | some u =>
      rw [hu] at h
      dsimp only at h
      injection h with h2
      injection h2 with hresp hs2
      exact ⟨record, u, rfl, hu, hresp.symm, hs2.symm⟩

/-- Denylisting an access token does not touch the token table. -/
theorem find_token_revoke_access (s : AuthState) (tok : AccessToken)
    (h : String) : find_token (revoke_access_token s tok) h = find_token s h :=
  rfl

/-- A revoked row keeps its revocation, expiry and owner across any single
non-purge operation: lookup is positional over the table, issuance appends
behind existing rows, and revocation never clears `revoked_at`. -/
theorem find_token_applyAuthOp {s : AuthState} {h : String}
    {r : RefreshToken} {t : Int} (op : AuthOp) (hnp : op.isPurge = false)
    (hfind : find_token s h = some r) (hrev : r.revoked_at = some t) :
    ∃ r2, find_token (applyAuthOp s op) h = some r2 ∧
      r2.revoked_at = some t ∧ r2.expired_at = r.expired_at := by
  cases op with
  | registerOp un em pw =>
    refine ⟨r, ?_, hrev, rfl⟩
    show find_token (register_user s un em pw).2 h = some r
    unfold find_token
    rw [(register_user_state s un em pw).1]
    exact hfind
  | loginOp q pw rawNew now ttl ip ua =>
    dsimp only [applyAuthOp]
    cases ha : authenticate s q pw with
    | error e => exact ⟨r, hfind, hrev, rfl⟩
    | ok u => exact ⟨r, find_token_create_of_found _ _ _ _ _ _ hfind, hrev, rfl⟩
  | refreshOp raw rawNew now secret aTtl rTtl ip ua =>
    dsimp only [applyAuthOp]
    cases hrh : refresh_handler s raw rawNew now secret aTtl rTtl ip ua with
    | error e => exact ⟨r, hfind, hrev, rfl⟩
    | ok pr =>
      obtain ⟨resp, s2⟩ := pr
      obtain ⟨record, u, hv, hu, hresp, hs2⟩ := refresh_handler_ok_state hrh
      subst hs2
      refine ⟨r, ?_, hrev, rfl⟩
      rw [find_token_revoke,
        find_token_create_of_found _ _ _ _ _ _ hfind,
        show Option.map (revokeRow raw now) (some r) =
          some (revokeRow raw now r) from rfl,
        revokeRow_of_revoked raw now hrev]
  | revokeOp raw now =>
    refine ⟨r, ?_, hrev, rfl⟩
    show find_token (revoke_refresh_token s raw now) h = some r
    rw [find_token_revoke, hfind,
      show Option.map (revokeRow raw now) (some r) =
        some (revokeRow raw now r) from rfl,
      revokeRow_of_revoked raw now hrev]
  | logoutOp tok raw now =>
    refine ⟨r, ?_, hrev, rfl⟩
    show find_token
      (revoke_refresh_token (revoke_access_token s tok) raw now) h = some r
    rw [find_token_revoke, find_token_revoke_access, hfind,
      show Option.map (revokeRow raw now) (some r) =
        some (revokeRow raw now r) from rfl,
      revokeRow_of_revoked raw now hrev]
  | purgeOp now => simp [AuthOp.isPurge] at hnp
  | deleteUserOp uid =>
    dsimp only [applyAuthOp]
    cases hd : delete_user s uid with
    | error e => exact ⟨r, hfind, hrev, rfl⟩
    | ok s2 =>
      refine ⟨r, ?_, hrev, rfl⟩
      unfold find_token at hfind ⊢
      rw [(delete_user_ok_state hd).1]
      exact hfind

/-- A revoked row keeps its revocation and expiry across any sequence of
non-purge operations. -/
theorem find_token_applyAuthOps {s : AuthState} {h : String}
    {r : RefreshToken} {t : Int} (ops : List AuthOp)
    (hnp : ∀ op ∈ ops, op.isPurge = false)
    (hfind : find_token s h = some r) (hrev : r.revoked_at = some t) :
    ∃ r2, find_token (applyAuthOps s ops) h = some r2 ∧
      r2.revoked_at = some t ∧ r2.expired_at = r.expired_at := by
  induction ops generalizing s r with
  | nil => exact ⟨r, hfind, hrev, rfl⟩
  | cons op ops ih =>
    obtain ⟨r2, hf2, hrev2, hexp2⟩ :=
      find_token_applyAuthOp op (hnp op (by simp)) hfind hrev
    obtain ⟨r3, hf3, hrev3, hexp3⟩ :=
      ih (fun o ho => hnp o (by simp [ho])) hf2 hrev2
    exact ⟨r3, hf3, hrev3, by rw [hexp3, hexp2]⟩

/-- No operation ever removes an access token from the denylist. -/
theorem denylist_mono (s : AuthState) (op : AuthOp) {tok : AccessToken}
    (h : tok ∈ s.denylist) : tok ∈ (applyAuthOp s op).denylist := by
  cases op with
  | registerOp un em pw =>
    show tok ∈ ((register_user s un em pw).2).denylist
    rw [(register_user_state s un em pw).2.1]
    exact h
  | loginOp q pw rawNew now ttl ip ua =>
    dsimp only [applyAuthOp]
    cases ha : authenticate s q pw with
    | error e => exact h
    | ok u => exact h
  | refreshOp raw rawNew now secret aTtl rTtl ip ua =>
    dsimp only [applyAuthOp]
    cases hrh : refresh_handler s raw rawNew now secret aTtl rTtl ip ua with
    | error e => exact h
    | ok pr =>
      obtain ⟨resp, s2⟩ := pr
      obtain ⟨record, u, hv, hu, hresp, hs2⟩ := refresh_handler_ok_state hrh
      subst hs2
      exact h
  | revokeOp raw now => exact h
  | logoutOp tok2 raw now => exact List.mem_append_left _ h
  | purgeOp now => exact h
  | deleteUserOp uid =>
    dsimp only [applyAuthOp]
    cases hd : delete_user s uid with
    | error e => exact h
    | ok s2 =>
      rw [(delete_user_ok_state hd).2.1]
      exact h

/-- No sequence of operations ever removes a denylisted access token. -/
theorem denylist_mono_ops (s : AuthState) (ops : List AuthOp)
    {tok : AccessToken} (h : tok ∈ s.denylist) :
    tok ∈ (applyAuthOps s ops).denylist := by
  induction ops generalizing s with
  | nil => exact h
  | cons op ops ih => exact ih _ (denylist_mono s op h)

/-- A matching unrevoked row gets `revoked_at = now` from `revokeRow`. -/
theorem revokeRow_of_match {r : RefreshToken} {raw : String} {now : Int}
    (hh : r.token_hash = hash_token raw) (hrev : r.revoked_at = none) :
    revokeRow raw now r = { r with revoked_at := some now } := by
  unfold revokeRow
  rw [hh, hrev]
  simp

/-! ## Theorems for refresh rotation (C1, C10) -/

/-- C1 (amended): a successful `refresh` call persists the replacement
refresh token (rotation) and revokes the presented one at that instant;
after any further sequence of non-purge operations, every `validate` or
`refresh` call presenting the old token fails — with `Revoked` at any time
before the row's expiry, and with `Expired` from the expiry on (expiry is
checked before revocation). -/
theorem refresh_rotation_revokes (s : AuthState) (raw rawNew : String)
    (now : Int) (secret : String) (aTtl rTtl : Int) (ip ua : Option String)
    (resp : TokenResponse) (s2 : AuthState)
    (hok : refresh_handler s raw rawNew now secret aTtl rTtl ip ua =
      .ok (resp, s2)) :
    (∃ rN ∈ s2.refresh_tokens, rN.token_hash = hash_token rawNew ∧
      rN.expired_at = now + rTtl) ∧
    (∀ ops : List AuthOp, (∀ op ∈ ops, op.isPurge = false) →
      ∃ r2, find_token (applyAuthOps s2 ops) (hash_token raw) = some r2 ∧
        r2.revoked_at = some now ∧
        ∀ (n : Int) (rawN2 secret2 : String) (aTtl2 rTtl2 : Int)
          (ip2 ua2 : Option String),
          validate_refresh_token (applyAuthOps s2 ops) raw n =
            .error (if r2.expired_at ≤ n then .expired else .revoked) ∧
          refresh_handler (applyAuthOps s2 ops) raw rawN2 n secret2 aTtl2
              rTtl2 ip2 ua2 =
            .error (if r2.expired_at ≤ n then .expired else .revoked)) := by
  obtain ⟨record, u, hv, hu, hresp, hs2⟩ := refresh_handler_ok_state hok
  obtain ⟨hfind, hrevN, hexpN⟩ := validate_ok_inv hv
  have hhash : record.token_hash = hash_token raw := by
    have := List.find?_some
      (show s.refresh_tokens.find? (fun r => r.token_hash == hash_token raw)
        = some record from hfind)
    simpa [beq_iff_eq] using this
  subst hs2
  constructor
  · refine ⟨revokeRow raw now
      ⟨s.next_token_id, record.user_id, hash_token rawNew, now, now + rTtl,
        none, ip, ua⟩, ?_, ?_, ?_⟩
    · exact List.mem_map_of_mem _ (List.mem_append_right _ (by simp))
    · rw [revokeRow_token_hash]
    · rw [revokeRow_expired_at]
  · intro ops hnp
    have hf2 : find_token (revoke_refresh_token
        (create_refresh_token s record.user_id rawNew now rTtl ip ua)
        raw now) (hash_token raw) =
        some { record with revoked_at := some now } := by
      rw [find_token_revoke, find_token_create_of_found _ _ _ _ _ _ hfind,
        show Option.map (revokeRow raw now) (some record) =
          some (revokeRow raw now record) from rfl,
        revokeRow_of_match hhash hrevN]
    obtain ⟨r3, hf3, hrev3, hexp3⟩ := find_token_applyAuthOps ops hnp hf2 rfl
    refine ⟨r3, hf3, hrev3, ?_⟩
    intro n rawN2 secret2 aTtl2 rTtl2 ip2 ua2
    have hval := validate_of_find_revoked n hf3 hrev3
    exact ⟨hval, refresh_handler_error rawN2 secret2 aTtl2 rTtl2 ip2 ua2 hval⟩

/-- C10: with a validated presented token, the handler persists the new
refresh token strictly before revoking the presented one: in every state it
passes through, once the presented token's row is revoked the replacement
row is already present; and when the final revocation step fails after
issuance, the issued token is persisted and valid in the state left behind,
even though the call returns an error. -/
theorem refresh_issues_before_revoking (s : AuthState) (raw rawNew : String)
    (now rTtl : Int) (ip ua : Option String) (record : RefreshToken)
    (hv : validate_refresh_token s raw now = .ok record)
    (hfresh : ∀ r ∈ s.refresh_tokens, r.token_hash ≠ hash_token rawNew)
    (httl : 0 < rTtl) :
    (∀ st ∈ refresh_handler_states s raw rawNew now rTtl ip ua,
      (∃ r2, find_token st (hash_token raw) = some r2 ∧
        r2.revoked_at ≠ none) →
      ∃ rN ∈ st.refresh_tokens, rN.token_hash = hash_token rawNew) ∧
    (∀ s1, refresh_handler_revoke_failed_state s raw rawNew now rTtl ip ua =
        some s1 →
      ∃ rN, find_token s1 (hash_token rawNew) = some rN ∧
        validate_refresh_token s1 rawNew now = .ok rN ∧
        rN ∈ s1.refresh_tokens ∧ rN.revoked_at = none ∧
        now < rN.expired_at) := by
  obtain ⟨hfind, hrevN, hexpN⟩ := validate_ok_inv hv
  constructor
  · intro st hst
    unfold refresh_handler_states at hst
    rw [hv] at hst
    dsimp only at hst
    simp only [List.mem_cons, List.mem_singleton, List.not_mem_nil,
      or_false] at hst
    rcases hst with rfl | rfl | rfl
    · rintro ⟨r2, hf2, hne⟩
      rw [hfind] at hf2
      cases Option.some.inj hf2
      exact (hne hrevN).elim
    · rintro ⟨r2, hf2, hne⟩
      rw [find_token_create_of_found _ _ _ _ _ _ hfind] at hf2
      cases Option.some.inj hf2
      exact (hne hrevN).elim
    · intro _
      refine ⟨revokeRow raw now
        ⟨s.next_token_id, record.user_id, hash_token rawNew, now, now + rTtl,
          none, ip, ua⟩, ?_, ?_⟩
      · exact List.mem_map_of_mem _ (List.mem_append_right _ (by simp))
      · rw [revokeRow_token_hash]
  · intro s1 h1
    unfold refresh_handler_revoke_failed_state at h1
    rw [hv] at h1
    dsimp only at h1
    cases Option.some.inj h1
    refine ⟨⟨s.next_token_id, record.user_id, hash_token rawNew, now,
      now + rTtl, none, ip, ua⟩,
      find_token_create_of_fresh _ _ _ _ _ _ hfresh, ?_, ?_, rfl,
      show now < now + rTtl by omega⟩
    · unfold validate_refresh_token
      rw [find_token_create_of_fresh _ _ _ _ _ _ hfresh]
      dsimp only
      rw [if_neg (by omega)]
    · exact List.mem_append_right _ (by simp)

/-! ## Theorem for logout and the denylist (C7) -/

/-- C7: after `logout(access_token, raw_refresh_token)`, resolving the
current user with that access token fails with `Unauthorized` after any
further sequence of operations, even at a time where the token's signature
still verifies and its natural expiry has not passed. -/
theorem logout_denylists_access_token (s : AuthState) (tok : AccessToken)
    (raw : String) (now : Int) (secret : String) (n : Int)
    (ops : List AuthOp)
    (hsig : tok.sig = sign secret tok.subject tok.expires_at)
    (hexp : n < tok.expires_at) :
    verify_access secret tok n = .ok tok.subject ∧
    get_current_user (applyAuthOps (logout_handler s tok raw now) ops)
      secret tok n = .error .unauthorized := by
  have hver : verify_access secret tok n = .ok tok.subject := by
    unfold verify_access
    rw [hsig, if_pos (beq_self_eq_true _), if_neg (by omega)]
  refine ⟨hver, ?_⟩
  have hmem : tok ∈ (logout_handler s tok raw now).denylist := by
    show tok ∈ s.denylist ++ [tok]
    exact List.mem_append_right _ (by simp)
  have hmem2 := denylist_mono_ops _ ops hmem
  unfold get_current_user
  rw [hver]
  dsimp only
  have hc : ((applyAuthOps (logout_handler s tok raw now) ops).denylist.any
      fun d => d == tok) = true :=
    List.any_eq_true.mpr ⟨tok, hmem2, beq_self_eq_true _⟩
  rw [if_pos hc]

/-! ## Registration and authentication (C5, C6) -/

/-- Inversion of a successful registration: no existing user carried the
username or the email, the created user gets the fresh id and the hashed
password, and the state appends it behind the existing users. -/
theorem register_user_ok_inv {s : AuthState} {un em pw : String} {u : User}
    {s2 : AuthState} (h : register_user s un em pw = (.ok u, s2)) :
    u = ⟨s.next_user_id, un, em, hash_password pw⟩ ∧
    s2 = { s with users := s.users ++ [u]
                  next_user_id := s.next_user_id + 1 } ∧
    (∀ v ∈ s.users, v.username ≠ un ∧ v.email ≠ em) := by
  unfold register_user at h
  split at h
  · injection h with h1 h2
    cases h1
  · rename_i hcond
    injection h with h1 h2
    cases Except.ok.inj h1
    rw [Bool.not_eq_true, List.any_eq_false] at hcond
    refine ⟨rfl, h2.symm, ?_⟩
    intro v hv
    have := hcond v hv
    simp only [Bool.or_eq_true, beq_iff_eq] at this
    exact ⟨fun he => this (Or.inl he), fun he => this (Or.inr he)⟩

/-- C6: for a user registered once, `authenticate` with the registered
username succeeds exactly on the registered password; any other password and
any lookup that matches no user fail with `Unauthorized`; and `authenticate`
never fails with `NotFound`. -/
theorem authenticate_registered_iff (s : AuthState) (un em pw : String)
    (u : User) (s2 : AuthState)
    (hreg : register_user s un em pw = (.ok u, s2))
    (hnoq : ∀ v ∈ s.users, v.username ≠ un ∧ v.email ≠ un) :
    (∀ p, authenticate s2 un p = .ok u ↔ p = pw) ∧
    (∀ p, p ≠ pw → authenticate s2 un p = .error .unauthorized) ∧
    (∀ (s3 : AuthState) (q p : String),
      (∀ v ∈ s3.users, v.username ≠ q ∧ v.email ≠ q) →
      authenticate s3 q p = .error .unauthorized) ∧
    (∀ (s3 : AuthState) (q p : String),
      authenticate s3 q p ≠ .error .notFound) := by
  obtain ⟨hu, hs2, hno⟩ := register_user_ok_inv hreg
  have hfind : s2.users.find?
      (fun v => v.username == un || v.email == un) = some u := by
    rw [hs2]
    dsimp only
    rw [List.find?_append]
    have h1 : s.users.find?
        (fun v => v.username == un || v.email == un) = none := by
      rw [List.find?_eq_none]
      intro v hv
      simp [beq_iff_eq, (hnoq v hv).1, (hnoq v hv).2]
    have h2 : (u.username == un || u.email == un) = true := by
      rw [hu]
      simp
    have h3 : List.find? (fun v => v.username == un || v.email == un) [u] =
        some u := List.find?_cons_of_pos _ h2
    rw [h1, h3]
    rfl
  have hpw : u.hash_password = hash_password pw := by rw [hu]
  constructor
  · intro p
    unfold authenticate
    rw [hfind]
    dsimp only
    rw [hpw]
    by_cases hp : p = pw
    · subst hp
      rw [if_pos ((verify_password_hash_iff p p).mpr rfl)]
      exact iff_of_true rfl rfl
    · have hvf : verify_password p (hash_password pw) = false :=
        Bool.eq_false_iff.mpr
          (fun hv => hp ((verify_password_hash_iff p pw).mp hv))
      rw [if_neg (by rw [hvf]; exact Bool.false_ne_true)]
      exact iff_of_false (by simp) hp
  constructor
  · intro p hp
    unfold authenticate
    rw [hfind]
    dsimp only
    rw [hpw]
    have hvf : verify_password p (hash_password pw) = false :=
      Bool.eq_false_iff.mpr
        (fun hv => hp ((verify_password_hash_iff p pw).mp hv))
    rw [if_neg (by rw [hvf]; exact Bool.false_ne_true)]
  constructor
  · intro s3 q p hq
    unfold authenticate
    have h3 : s3.users.find?
        (fun v => v.username == q || v.email == q) = none := by
      rw [List.find?_eq_none]
      intro v hv
      simp [beq_iff_eq, (hq v hv).1, (hq v hv).2]
    rw [h3]
  · intro s3 q p
    unfold authenticate
    cases hf : s3.users.find? (fun v => v.username == q || v.email == q) with
    | none => simp
    | some v =>
      dsimp only
      split
      · simp
      · simp

/-- Reachable states keep pairwise distinct usernames and emails. -/
def usersUnique (s : AuthState) : Prop :=
  List.Pairwise (fun a b => a.username ≠ b.username ∧ a.email ≠ b.email)
    s.users

/-- Every operation preserves the uniqueness of usernames and emails:
registration is guarded by the existence check, and no other operation adds
users. -/
theorem usersUnique_applyAuthOp {s : AuthState} (op : AuthOp)
    (h : usersUnique s) : usersUnique (applyAuthOp s op) := by
  cases op with
  | registerOp un em pw =>
    show usersUnique (register_user s un em pw).2
    unfold register_user
    split
    · exact h
    · rename_i hcond
      unfold usersUnique at h ⊢
      dsimp only
      rw [List.pairwise_append]
      refine ⟨h, by simp, ?_⟩
      intro a ha b hb
      rw [List.mem_singleton] at hb
      subst hb
      rw [Bool.not_eq_true, List.any_eq_false] at hcond
      have := hcond a ha
      simp only [Bool.or_eq_true, beq_iff_eq] at this
      exact ⟨fun he => this (Or.inl he), fun he => this (Or.inr he)⟩
  | loginOp q pw rawNew now ttl ip ua =>
    dsimp only [applyAuthOp]
    cases ha : authenticate s q pw with
    | error e => exact h
    | ok u => exact h
  | refreshOp raw rawNew now secret aTtl rTtl ip ua =>
    dsimp only [applyAuthOp]
    cases hrh : refresh_handler s raw rawNew now secret aTtl rTtl ip ua with
    | error e => exact h
    | ok pr =>
      obtain ⟨resp, s2⟩ := pr
      obtain ⟨record, u, hv, hu, hresp, hs2⟩ := refresh_handler_ok_state hrh
      subst hs2
      exact h
  | revokeOp raw now => exact h
  | logoutOp tok raw now => exact h
  | purgeOp now => exact h
  | deleteUserOp uid =>
    dsimp only [applyAuthOp]
    cases hd : delete_user s uid with
    | error e => exact h
    | ok s2 =>
      unfold usersUnique at h ⊢
      rw [(delete_user_ok_state hd).2.2.1]
      exact List.Pairwise.filter _ h

/-- Usernames and emails are pairwise distinct in every reachable state. -/
theorem reachable_usersUnique {s : AuthState} (h : Reachable s) :
    usersUnique s := by
  induction h with
  | init => exact List.Pairwise.nil
  | step op hs ih => exact usersUnique_applyAuthOp op ih

/-- C5: after a successful registration, registering again with the same
username or the same email yields `Conflict` and leaves the state — hence
the persisted rows — unchanged; and in every reachable state no two user
rows share a username or an email. -/
theorem register_duplicate_conflict (s : AuthState) (un em pw : String)
    (u : User) (s2 : AuthState) (un2 em2 pw2 : String)
    (hreg : register_user s un em pw = (.ok u, s2))
    (hdup : un2 = un ∨ em2 = em) :
    register_user s2 un2 em2 pw2 = (.error .conflict, s2) ∧
    (∀ st, Reachable st → usersUnique st) := by
  obtain ⟨hu, hs2, hno⟩ := register_user_ok_inv hreg
  constructor
  · have hmem : u ∈ s2.users := by
      rw [hs2]
      exact List.mem_append_right _ (by simp)
    have hcond : s2.users.any
        (fun v => v.username == un2 || v.email == em2) = true := by
      refine List.any_eq_true.mpr ⟨u, hmem, ?_⟩
      rcases hdup with rfl | rfl
      · rw [hu]; simp
      · rw [hu]; simp
    unfold register_user
    rw [if_pos hcond]
  · exact fun st hst => reachable_usersUnique hst

/-! ## Refresh-token ownership (C9) -/

/-- The authenticated user is a stored user. -/
theorem authenticate_ok_mem {s : AuthState} {q pw : String} {u : User}
    (h : authenticate s q pw = .ok u) : u ∈ s.users := by
  unfold authenticate at h
  cases hf : s.users.find? (fun v => v.username == q || v.email == q) with
  | none => rw [hf] at h; cases h
  | some v =>
    rw [hf] at h
    dsimp only at h
    split at h
    · cases Except.ok.inj h
      exact List.mem_of_find?_eq_some hf
    · cases h

/-- Referential integrity: every token row is owned by an existing user. -/
def tokensReferenceUsers (s : AuthState) : Prop :=
  ∀ r ∈ s.refresh_tokens, ∃ u ∈ s.users, u.id = r.user_id

/-- Primary-key discipline of the token table: every row id is below the
counter and row ids are pairwise distinct. -/
def tokenIdsOk (s : AuthState) : Prop :=
  (∀ r ∈ s.refresh_tokens, r.id < s.next_token_id) ∧
  List.Pairwise (fun a b => a.id ≠ b.id) s.refresh_tokens

/-- `tokenIdsOk` transports along states with the same token table and
counter. -/
theorem tokenIdsOk_congr {s s2 : AuthState}
    (ht : s2.refresh_tokens = s.refresh_tokens)
    (hc : s2.next_token_id = s.next_token_id) (h : tokenIdsOk s) :
    tokenIdsOk s2 := by
  obtain ⟨hb, hp⟩ := h
  exact ⟨fun r hr => by rw [hc]; exact hb r (by rw [← ht]; exact hr),
    by rw [ht]; exact hp⟩

/-- Issuance keeps the id discipline: the new row takes the counter value,
strictly above every existing id. -/
theorem tokenIdsOk_create {s : AuthState} (h : tokenIdsOk s) (uid : Nat)
    (rawNew : String) (now ttl : Int) (ip ua : Option String) :
    tokenIdsOk (create_refresh_token s uid rawNew now ttl ip ua) := by
  obtain ⟨hb, hp⟩ := h
  constructor
  · intro r hr
    dsimp only [create_refresh_token] at hr ⊢
    rw [List.mem_append] at hr
    rcases hr with hr | hr
    · have := hb r hr
      omega
    · rw [List.mem_singleton] at hr
      subst hr
      show s.next_token_id < s.next_token_id + 1
      omega
  · dsimp only [create_refresh_token]
    rw [List.pairwise_append]
    refine ⟨hp, by simp, ?_⟩
    intro a ha b hb2
    rw [List.mem_singleton] at hb2
    subst hb2
    have := hb a ha
    show a.id ≠ s.next_token_id
    omega

/-- Revocation keeps the id discipline: ids are untouched. -/
theorem tokenIdsOk_revoke {s : AuthState} (raw : String) (now : Int)
    (h : tokenIdsOk s) : tokenIdsOk (revoke_refresh_token s raw now) := by
  obtain ⟨hb, hp⟩ := h
  constructor
  · intro r hr
    dsimp only [revoke_refresh_token] at hr ⊢
    rw [List.mem_map] at hr
    obtain ⟨r0, hr0, rfl⟩ := hr
    rw [revokeRow_id]
    exact hb r0 hr0
  · dsimp only [revoke_refresh_token]
    exact List.Pairwise.map _
      (fun a b hab => by rw [revokeRow_id, revokeRow_id]; exact hab) hp

/-- Every operation keeps the id discipline of the token table. -/
theorem tokenIdsOk_applyAuthOp {s : AuthState} (op : AuthOp)
    (h : tokenIdsOk s) : tokenIdsOk (applyAuthOp s op) := by
  cases op with
  | registerOp un em pw =>
    exact tokenIdsOk_congr (register_user_state s un em pw).1
      (register_user_state s un em pw).2.2.2 h
  | loginOp q pw rawNew now ttl ip ua =>
    dsimp only [applyAuthOp]
    cases ha : authenticate s q pw with
    | error e => exact h
    | ok u => exact tokenIdsOk_create h u.id rawNew now ttl ip ua
  | refreshOp raw rawNew now secret aTtl rTtl ip ua =>
    dsimp only [applyAuthOp]
    cases hrh : refresh_handler s raw rawNew now secret aTtl rTtl ip ua with
    | error e => exact h
    | ok pr =>
      obtain ⟨resp, s2⟩ := pr
      obtain ⟨record, u, hv, hu, hresp, hs2⟩ := refresh_handler_ok_state hrh
      subst hs2
      exact tokenIdsOk_revoke raw now
        (tokenIdsOk_create h record.user_id rawNew now rTtl ip ua)
  | revokeOp raw now => exact tokenIdsOk_revoke raw now h
  | logoutOp tok raw now =>
    exact tokenIdsOk_revoke raw now (tokenIdsOk_congr rfl rfl h)
  | purgeOp now =>
    obtain ⟨hb, hp⟩ := h
    constructor
    · intro r hr
      have hr2 : r ∈ s.refresh_tokens.filter
          (fun r => !cleanupPredicate now r) := hr
      exact hb r (List.mem_filter.mp hr2).1
    · exact List.Pairwise.filter _ hp
  | deleteUserOp uid =>
    dsimp only [applyAuthOp]
    cases hd : delete_user s uid with
    | error e => exact h
    | ok s2 =>
      exact tokenIdsOk_congr (delete_user_ok_state hd).1
        (delete_user_ok_state hd).2.2.2.1 h

/-- Every operation preserves referential integrity of token ownership. -/
theorem tokensRef_applyAuthOp {s : AuthState} (op : AuthOp)
    (h : tokensReferenceUsers s) :
    tokensReferenceUsers (applyAuthOp s op) := by
  cases op with
  | registerOp un em pw =>
    intro r hr
    have ht := (register_user_state s un em pw).1
    have hr2 : r ∈ s.refresh_tokens := by rw [← ht]; exact hr
    obtain ⟨u, hu, hid⟩ := h r hr2
    refine ⟨u, ?_, hid⟩
    show u ∈ ((register_user s un em pw).2).users
    unfold register_user
    split
    · exact hu
    · exact List.mem_append_left _ hu
  | loginOp q pw rawNew now ttl ip ua =>
    dsimp only [applyAuthOp]
    cases ha : authenticate s q pw with
    | error e => exact h
    | ok u =>
      intro r hr
      have hr2 : r ∈ s.refresh_tokens ++
          [⟨s.next_token_id, u.id, hash_token rawNew, now, now + ttl, none,
            ip, ua⟩] := hr
      rw [List.mem_append] at hr2
      rcases hr2 with hr2 | hr2
      · exact h r hr2
      · rw [List.mem_singleton] at hr2
        subst hr2
        exact ⟨u, authenticate_ok_mem ha, rfl⟩
  | refreshOp raw rawNew now secret aTtl rTtl ip ua =>
    dsimp only [applyAuthOp]
    cases hrh : refresh_handler s raw rawNew now secret aTtl rTtl ip ua with
    | error e => exact h
    | ok pr =>
      obtain ⟨resp, s2⟩ := pr
      obtain ⟨record, u, hv, hu, hresp, hs2⟩ := refresh_handler_ok_state hrh
      subst hs2
      have hrecmem : record ∈ s.refresh_tokens := by
        have hfind := (validate_ok_inv hv).1
        exact List.mem_of_find?_eq_some
          (show s.refresh_tokens.find?
            (fun r => r.token_hash == hash_token raw) = some record
            from hfind)
      intro r hr
      have hr2 : r ∈ List.map (revokeRow raw now) (s.refresh_tokens ++
          [⟨s.next_token_id, record.user_id, hash_token rawNew, now,
            now + rTtl, none, ip, ua⟩]) := hr
      rw [List.mem_map] at hr2
      obtain ⟨r0, hr0, rfl⟩ := hr2
      rw [List.mem_append] at hr0
      rcases hr0 with hr0 | hr0
      · obtain ⟨v, hv2, hid2⟩ := h r0 hr0
        exact ⟨v, hv2, by rw [revokeRow_user_id]; exact hid2⟩
      · rw [List.mem_singleton] at hr0
        subst hr0
        obtain ⟨v, hv2, hid2⟩ := h record hrecmem
        exact ⟨v, hv2, by rw [revokeRow_user_id]; exact hid2⟩
  | revokeOp raw now =>
    intro r hr
    have hr2 : r ∈ List.map (revokeRow raw now) s.refresh_tokens := hr
    rw [List.mem_map] at hr2
    obtain ⟨r0, hr0, rfl⟩ := hr2
    obtain ⟨v, hv2, hid2⟩ := h r0 hr0
    exact ⟨v, hv2, by rw [revokeRow_user_id]; exact hid2⟩
  | logoutOp tok raw now =>
    intro r hr
    have hr2 : r ∈ List.map (revokeRow raw now) s.refresh_tokens := hr
    rw [List.mem_map] at hr2
    obtain ⟨r0, hr0, rfl⟩ := hr2
    obtain ⟨v, hv2, hid2⟩ := h r0 hr0
    exact ⟨v, hv2, by rw [revokeRow_user_id]; exact hid2⟩
  | purgeOp now =>
    intro r hr
    have hr2 : r ∈ s.refresh_tokens.filter
        (fun r => !cleanupPredicate now r) := hr
    exact h r (List.mem_filter.mp hr2).1
  | deleteUserOp uid =>
    dsimp only [applyAuthOp]
    cases hd : delete_user s uid with
    | error e => exact h
    | ok s2 =>
      obtain ⟨ht, hdeny, husers, hc, howners⟩ := delete_user_ok_state hd
      intro r hr
      have hr2 : r ∈ s.refresh_tokens := by rw [← ht]; exact hr
      obtain ⟨v, hv2, hid2⟩ := h r hr2
      refine ⟨v, ?_, hid2⟩
      rw [husers, List.mem_filter]
      refine ⟨hv2, ?_⟩
      have hne := howners r hr2
      simp only [Bool.not_eq_true', beq_eq_false_iff_ne, ne_eq]
      intro he
      exact hne (by rw [← hid2]; exact he)

/-- Referential integrity holds in every reachable state. -/
theorem reachable_tokensRef {s : AuthState} (h : Reachable s) :
    tokensReferenceUsers s := by
  induction h with
  | init => intro r hr; cases hr
  | step op hs ih => exact tokensRef_applyAuthOp op ih

/-- The id discipline holds in every reachable state. -/
theorem reachable_tokenIdsOk {s : AuthState} (h : Reachable s) :
    tokenIdsOk s := by
  induction h with
  | init => exact ⟨fun r hr => (List.not_mem_nil r hr).elim, List.Pairwise.nil⟩
  | step op hs ih => exact tokenIdsOk_applyAuthOp op ih

/-- Every row of the table after one operation either descends from a row of
the previous state with the same id and owner, or is freshly issued and
carries an id at or above the previous counter. -/
theorem applyAuthOp_token_descend (s : AuthState) (op : AuthOp)
    {r2 : RefreshToken} (h2 : r2 ∈ (applyAuthOp s op).refresh_tokens) :
    (∃ r1 ∈ s.refresh_tokens, r1.id = r2.id ∧ r1.user_id = r2.user_id) ∨
    s.next_token_id ≤ r2.id := by
  cases op with
  | registerOp un em pw =>
    have ht := (register_user_state s un em pw).1
    exact Or.inl ⟨r2, by rw [← ht]; exact h2, rfl, rfl⟩
  | loginOp q pw rawNew now ttl ip ua =>
    dsimp only [applyAuthOp] at h2
    cases ha : authenticate s q pw with
    | error e =>
      rw [ha] at h2
      exact Or.inl ⟨r2, h2, rfl, rfl⟩
    | ok u =>
      rw [ha] at h2
      dsimp only at h2
      have h2' : r2 ∈ s.refresh_tokens ++
          [⟨s.next_token_id, u.id, hash_token rawNew, now, now + ttl, none,
            ip, ua⟩] := h2
      rw [List.mem_append] at h2'
      rcases h2' with h2' | h2'
      · exact Or.inl ⟨r2, h2', rfl, rfl⟩
      · rw [List.mem_singleton] at h2'
        subst h2'
        exact Or.inr (le_refl _)
  | refreshOp raw rawNew now secret aTtl rTtl ip ua =>
    dsimp only [applyAuthOp] at h2
    cases hrh : refresh_handler s raw rawNew now secret aTtl rTtl ip ua with
    | error e =>
      rw [hrh] at h2
      exact Or.inl ⟨r2, h2, rfl, rfl⟩
    | ok pr =>
      rw [hrh] at h2
      obtain ⟨resp, s2⟩ := pr
      obtain ⟨record, u, hv, hu, hresp, hs2⟩ := refresh_handler_ok_state hrh
      subst hs2
      dsimp only at h2
      have h2' : r2 ∈ List.map (revokeRow raw now) (s.refresh_tokens ++
          [⟨s.next_token_id, record.user_id, hash_token rawNew, now,
            now + rTtl, none, ip, ua⟩]) := h2
      rw [List.mem_map] at h2'
      obtain ⟨r0, hr0, rfl⟩ := h2'
      rw [List.mem_append] at hr0
      rcases hr0 with hr0 | hr0
      · exact Or.inl ⟨r0, hr0, (revokeRow_id raw now r0).symm,
          (revokeRow_user_id raw now r0).symm⟩
      · rw [List.mem_singleton] at hr0
        subst hr0
        refine Or.inr ?_
        rw [revokeRow_id]
  | revokeOp raw now =>
    have h2' : r2 ∈ List.map (revokeRow raw now) s.refresh_tokens := h2
    rw [List.mem_map] at h2'
    obtain ⟨r0, hr0, rfl⟩ := h2'
    exact Or.inl ⟨r0, hr0, (revokeRow_id raw now r0).symm,
      (revokeRow_user_id raw now r0).symm⟩
  | logoutOp tok raw now =>
    have h2' : r2 ∈ List.map (revokeRow raw now) s.refresh_tokens := h2
    rw [List.mem_map] at h2'
    obtain ⟨r0, hr0, rfl⟩ := h2'
    exact Or.inl ⟨r0, hr0, (revokeRow_id raw now r0).symm,
      (revokeRow_user_id raw now r0).symm⟩
  | purgeOp now =>
    have h2' : r2 ∈ s.refresh_tokens.filter
        (fun r => !cleanupPredicate now r) := h2
    exact Or.inl ⟨r2, (List.mem_filter.mp h2').1, rfl, rfl⟩
  | deleteUserOp uid =>
    dsimp only [applyAuthOp] at h2
    cases hd : delete_user s uid with
    | error e =>
      rw [hd] at h2
      exact Or.inl ⟨r2, h2, rfl, rfl⟩
    | ok s2 =>
      rw [hd] at h2
      dsimp only at h2
      have ht := (delete_user_ok_state hd).1
      exact Or.inl ⟨r2, by rw [← ht]; exact h2, rfl, rfl⟩

/-- C9 (amended): deleting a user who still owns refresh-token rows is
rejected by the foreign key (`refresh_tokens.user_id` declares no
`ON DELETE CASCADE`, so the rows are NOT cascade-deleted); every token row
of a reachable state references an existing user; and no operation ever
changes the owner of an existing token row. -/
theorem refresh_tokens_ownership (s : AuthState) (uid : Nat) (op : AuthOp)
    (r1 r2 : RefreshToken) (hreach : Reachable s)
    (href : ∃ r ∈ s.refresh_tokens, r.user_id = uid)
    (h1 : r1 ∈ s.refresh_tokens)
    (h2 : r2 ∈ (applyAuthOp s op).refresh_tokens)
    (hid : r1.id = r2.id) :
    delete_user s uid = .error .restricted ∧
    tokensReferenceUsers s ∧
    r1.user_id = r2.user_id := by
  obtain ⟨hb, hp⟩ := reachable_tokenIdsOk hreach
  refine ⟨?_, reachable_tokensRef hreach, ?_⟩
  · obtain ⟨r, hr, hur⟩ := href
    unfold delete_user
    have hcond : (refresh_tokens_user_fk == OnDeleteAction.noAction &&
        s.refresh_tokens.any (fun r => r.user_id == uid)) = true := by
      rw [Bool.and_eq_true]
      exact ⟨rfl, List.any_eq_true.mpr
        ⟨r, hr, by rw [hur]; exact beq_self_eq_true uid⟩⟩
    rw [if_pos hcond]
  · rcases applyAuthOp_token_descend s op h2 with ⟨r0, hr0, hid0, huid0⟩ | hge
    · have heq : r0 = r1 := by
        by_contra hne
        exact List.Pairwise.forall (fun a b hab => hab.symm) hp hr0 h1 hne
          (by rw [hid0, ← hid])
      subst heq
      exact huid0
    · have := hb r1 h1
      omega

/-! ## Theorem for the refresh route status code -/

/-- C4 (code bug): the duplicated decorator on the `refresh` handler makes a
successful `POST /auth/refresh` respond with 200 OK — the first-registered
route carries FastAPI's default status — not the declared 201 Created. -/
theorem refresh_status_is_200_not_201 :
    refreshSuccessStatus = some defaultStatus ∧ refreshSuccessStatus ≠ some 201 := by
  constructor
  · rfl
  · intro h
    simp [refreshSuccessStatus, servedRoute, refreshRouteDecls, defaultStatus,
      List.find?] at h

/-! ## Concrete states for counterexamples and witnesses -/

/-- A registered user row. -/
def aliceUser : User :=
  ⟨1, "alice", "alice@example.com", hash_password "Secret123"⟩

/-- A live refresh-token row of `aliceUser`: hash of raw token `"r1"`,
issued at time 0, expiring at time 100. -/
def presentedTok : RefreshToken :=
  ⟨1, 1, hash_token "r1", 0, 100, none, none, none⟩

/-- A state with one user and one live refresh token. -/
def baseState : AuthState := ⟨[aliceUser], [presentedTok], [], [], 2, 2⟩

/-- The state left by successfully refreshing `"r1"` at time 0 on
`baseState` with new raw token `"r2"` and refresh TTL 100. -/
def rotatedState : AuthState :=
  revoke_refresh_token
    (create_refresh_token baseState 1 "r2" 0 100 none none) "r1" 0

/-- C1 counterexample: after a successful refresh at time 0, validating the
presented token `"r1"` (whose row expires at 100) at time 100 fails with
`Expired`, not `Revoked` — expiry is checked before revocation, so the
claim "fails with `Revoked` at any later time" is false at this input. -/
theorem refresh_then_validate_expired_counterexample :
    (∃ resp, refresh_handler baseState "r1" "r2" 0 "key" 900 100 none none =
      .ok (resp, rotatedState)) ∧
    validate_refresh_token rotatedState "r1" 100 = .error .expired ∧
    validate_refresh_token rotatedState "r1" 100 ≠ .error .revoked := by
  refine ⟨⟨_, rfl⟩, rfl, ?_⟩
  intro h
  have h2 : validate_refresh_token rotatedState "r1" 100 =
      .error .expired := rfl
  rw [h2] at h
  simp at h

/-- Witness for `refresh_rotation_revokes`: the refresh of `"r1"` at time 0
on the concrete one-token state. -/
theorem refresh_rotation_revokes_witness :
    (∃ rN ∈ rotatedState.refresh_tokens,
      rN.token_hash = hash_token "r2" ∧ rN.expired_at = 0 + 100) ∧
    (∀ ops : List AuthOp, (∀ op ∈ ops, op.isPurge = false) →
      ∃ r2, find_token (applyAuthOps rotatedState ops) (hash_token "r1") =
          some r2 ∧ r2.revoked_at = some 0 ∧
        ∀ (n : Int) (rawN2 secret2 : String) (aTtl2 rTtl2 : Int)
          (ip2 ua2 : Option String),
          validate_refresh_token (applyAuthOps rotatedState ops) "r1" n =
            .error (if r2.expired_at ≤ n then .expired else .revoked) ∧
          refresh_handler (applyAuthOps rotatedState ops) "r1" rawN2 n
              secret2 aTtl2 rTtl2 ip2 ua2 =
            .error (if r2.expired_at ≤ n then .expired else .revoked)) :=
  refresh_rotation_revokes baseState "r1" "r2" 0 "key" 900 100 none none _
    rotatedState rfl

/-- Witness for `refresh_issues_before_revoking` on the concrete state. -/
theorem refresh_issues_before_revoking_witness :
    (∀ st ∈ refresh_handler_states baseState "r1" "r2" 0 100 none none,
      (∃ r2, find_token st (hash_token "r1") = some r2 ∧
        r2.revoked_at ≠ none) →
      ∃ rN ∈ st.refresh_tokens, rN.token_hash = hash_token "r2") ∧
    (∀ s1, refresh_handler_revoke_failed_state baseState "r1" "r2" 0 100
        none none = some s1 →
      ∃ rN, find_token s1 (hash_token "r2") = some rN ∧
        validate_refresh_token s1 "r2" 0 = .ok rN ∧
        rN ∈ s1.refresh_tokens ∧ rN.revoked_at = none ∧
        0 < rN.expired_at) :=
  refresh_issues_before_revoking baseState "r1" "r2" 0 100 none none
    presentedTok rfl (by decide) (by decide)

/-- An access token minted for alice at time 0 with TTL 900. -/
def aliceAccess : AccessToken := create_access_token "key" "alice" 0 900

/-- Witness for `logout_denylists_access_token` at time 100, where the
token's signature still verifies and its expiry (900) has not passed. -/
theorem logout_denylists_access_token_witness :
    verify_access "key" aliceAccess 100 = .ok aliceAccess.subject ∧
    get_current_user
      (applyAuthOps (logout_handler baseState aliceAccess "r1" 0) [])
      "key" aliceAccess 100 = .error .unauthorized :=
  logout_denylists_access_token baseState aliceAccess "r1" 0 "key" 100 []
    rfl (by decide)

/-- The state after registering alice on the empty database. -/
def registeredState : AuthState :=
  (register_user initialState "alice" "alice@example.com" "Secret123").2

/-- Witness for `authenticate_registered_iff` after registering alice on
the empty database. -/
theorem authenticate_registered_iff_witness :
    (∀ p, authenticate registeredState "alice" p =
      .ok ⟨1, "alice", "alice@example.com", hash_password "Secret123"⟩ ↔
      p = "Secret123") ∧
    (∀ p, p ≠ "Secret123" →
      authenticate registeredState "alice" p = .error .unauthorized) ∧
    (∀ (s3 : AuthState) (q p : String),
      (∀ v ∈ s3.users, v.username ≠ q ∧ v.email ≠ q) →
      authenticate s3 q p = .error .unauthorized) ∧
    (∀ (s3 : AuthState) (q p : String),
      authenticate s3 q p ≠ .error .notFound) :=
  authenticate_registered_iff initialState "alice" "alice@example.com"
    "Secret123" ⟨1, "alice", "alice@example.com", hash_password "Secret123"⟩
    registeredState rfl (fun v hv => absurd hv (List.not_mem_nil v))

/-- Witness for `register_duplicate_conflict`: a second registration with
the username `"alice"` already taken. -/
theorem register_duplicate_conflict_witness :
    register_user registeredState "alice" "other@example.com" "pw2" =
      (.error .conflict, registeredState) ∧
    (∀ st, Reachable st → usersUnique st) :=
  register_duplicate_conflict initialState "alice" "alice@example.com"
    "Secret123" ⟨1, "alice", "alice@example.com", hash_password "Secret123"⟩
    registeredState "alice" "other@example.com" "pw2" rfl (Or.inl rfl)

/-- C9 counterexample: deleting user 1, who owns a refresh-token row, does
not cascade — the delete is rejected by the foreign key and no state in
which the rows are gone exists. -/
theorem delete_user_does_not_cascade :
    delete_user baseState 1 = .error .restricted ∧
    ¬ ∃ s2, delete_user baseState 1 = Except.ok s2 ∧
      ∀ r ∈ s2.refresh_tokens, r.user_id ≠ 1 := by
  refine ⟨rfl, ?_⟩
  rintro ⟨s2, hs2, -⟩
  have h : delete_user baseState 1 = .error .restricted := rfl
  rw [h] at hs2
  exact Except.noConfusion hs2

/-- A reachable state: register alice on the empty database, then log in,
issuing refresh token `"r1"` at time 0 with TTL 100. -/
def reachableState : AuthState :=
  applyAuthOp
    (applyAuthOp initialState
      (.registerOp "alice" "alice@example.com" "Secret123"))
    (.loginOp "alice" "Secret123" "r1" 0 100 none none)

/-- The token row issued by the login above. -/
def issuedTok : RefreshToken :=
  ⟨1, 1, hash_token "r1", 0, 100, none, none, none⟩

/-- The same row after a revocation at time 5. -/
def issuedTokRevoked : RefreshToken :=
  ⟨1, 1, hash_token "r1", 0, 100, some 5, none, none⟩

/-- Witness for `refresh_tokens_ownership` on the reachable two-step state,
with a revocation as the extra operation. -/
theorem refresh_tokens_ownership_witness :
    delete_user reachableState 1 = .error .restricted ∧
    tokensReferenceUsers reachableState ∧
    issuedTok.user_id = issuedTokRevoked.user_id :=
  refresh_tokens_ownership reachableState 1 (.revokeOp "r1" 5) issuedTok
    issuedTokRevoked
    (Reachable.step _ (Reachable.step _ Reachable.init))
    ⟨issuedTok, by decide, rfl⟩ (by decide) (by decide) rfl

end ContactsApp
